import Mathlib

/-!
Shallow embedding of the record data model of the `asyncfsm` repository
(`src/record.rs`): the `Value` union, the `DataRecord` container and its
merge operations (`insert`, `append_value`, `overwrite_from`, `remove`),
the positional record-set comparator `compare_sets`, and the serde-derived
wire (de)serialization of records.

The Rust `HashMap<String, Value>` is modelled as an association list with
unique keys (the `RecordWF` predicate states key uniqueness, which the
Rust `HashMap` guarantees by construction); `HashMap::insert` replaces the
value of an existing key in place and otherwise adds a new entry.
-/

namespace AsyncFsm

/-- Rust enum `Value` from `src/record.rs`: either a single extracted
string or a list of extracted strings. -/
inductive Value where
  | Single : String → Value
  | List : List String → Value
deriving DecidableEq

/-- Rust struct `DataRecord` from `src/record.rs`: a map of value names to
their extracted values, plus an optional `record_key`. -/
structure DataRecord where
  fields : List (String × Value)
  record_key : Option String
deriving DecidableEq

/-- Lookup in the field map (`HashMap::get`). -/
def mapGet (m : List (String × Value)) (k : String) : Option Value :=
  match m with
  | [] => none
  | (k0, v0) :: rest => if k0 = k then some v0 else mapGet rest k

/-- Insertion into the field map (`HashMap::insert`): replaces the value
of an existing key, otherwise adds a new entry. -/
def mapInsert (m : List (String × Value)) (k : String) (v : Value) :
    List (String × Value) :=
  match m with
  | [] => [(k, v)]
  | (k0, v0) :: rest =>
    if k0 = k then (k, v) :: rest else (k0, v0) :: mapInsert rest k v

/-- Removal from the field map (`HashMap::remove`). -/
def mapRemove (m : List (String × Value)) (k : String) :
    List (String × Value) :=
  match m with
  | [] => []
  | (k0, v0) :: rest =>
    if k0 = k then rest else (k0, v0) :: mapRemove rest k

/-- Key uniqueness, an invariant the Rust `HashMap` provides by
construction. -/
def RecordWF (r : DataRecord) : Prop :=
  (r.fields.map Prod.fst).Nodup

instance (r : DataRecord) : Decidable (RecordWF r) := by
  unfold RecordWF; infer_instance

/-- `DataRecord::get`. -/
def DataRecord.get (r : DataRecord) (key : String) : Option Value :=
  mapGet r.fields key

/-- `DataRecord::keys`. -/
def DataRecord.keys (r : DataRecord) : List String :=
  r.fields.map Prod.fst

/-- `DataRecord::iter`. -/
def DataRecord.iter (r : DataRecord) : List (String × Value) :=
  r.fields

/-- `DataRecord::overwrite_from`: for each field of `other`, insert it
into `self`'s field map. -/
def DataRecord.overwrite_from (r : DataRecord) (other : DataRecord) :
    DataRecord :=
  { r with
    fields := other.fields.foldl (fun acc kv => mapInsert acc kv.1 kv.2)
      r.fields }

/-- `DataRecord::insert`: single-string write with auto-promotion.
Occupied `Single(old)` becomes `List([old, value])`; occupied `List`
gets `value` pushed; a vacant entry becomes `Single(value)`. -/
def DataRecord.insert (r : DataRecord) (name value : String) : DataRecord :=
  match mapGet r.fields name with
  | some (Value.Single old) =>
    { r with fields := mapInsert r.fields name (Value.List [old, value]) }
  | some (Value.List l) =>
    { r with fields := mapInsert r.fields name (Value.List (l ++ [value])) }
  | none =>
    { r with fields := mapInsert r.fields name (Value.Single value) }

/-- Diagnostic payload of the abort in `DataRecord::append_value` when an
incoming `List` meets an existing `Single`: the message carries the
incoming list, the existing string and the field name. -/
structure AppendAbort where
  name : String
  existing : String
  incoming : List String
deriving DecidableEq

/-- `DataRecord::append_value`: whole-`Value` merge. Existing `Single`
with incoming `Single` is overwritten; existing `Single` with incoming
`List` aborts (modelled as `Except.error`); existing `List` gets the
incoming pushed or concatenated; an absent field stores the value
as-is. -/
def DataRecord.append_value (r : DataRecord) (name : String) (value : Value) :
    Except AppendAbort DataRecord :=
  match mapGet r.fields name with
  | some (Value.Single old) =>
    match value with
    | Value.Single v =>
      Except.ok { r with fields := mapInsert r.fields name (Value.Single v) }
    | Value.List l => Except.error ⟨name, old, l⟩
  | some (Value.List l) =>
    match value with
    | Value.Single v =>
      Except.ok
        { r with fields := mapInsert r.fields name (Value.List (l ++ [v])) }
    | Value.List l2 =>
      Except.ok
        { r with fields := mapInsert r.fields name (Value.List (l ++ l2)) }
  | none =>
    Except.ok { r with fields := mapInsert r.fields name value }

/-- `DataRecord::remove`. -/
def DataRecord.remove (r : DataRecord) (key : String) : DataRecord :=
  { r with fields := mapRemove r.fields key }

/-- Rust `Debug` escaping of a character inside a string literal
(`char::escape_debug` on the characters that occur here). -/
def rustEscapeChar (c : Char) : String :=
  if c = '"' then "\\\""
  else if c = '\\' then "\\\\"
  else if c = '\n' then "\\n"
  else if c = '\r' then "\\r"
  else if c = '\t' then "\\t"
  else String.singleton c

/-- Rust `Debug` rendering of a `String`: quoted and escaped. -/
def rustDebugString (s : String) : String :=
  "\"" ++ String.join (s.toList.map rustEscapeChar) ++ "\""

/-- Rust `Debug` rendering of a `Vec<String>`: a bracketed,
comma-separated listing of `Debug`-rendered strings. -/
def rustDebugStringList (l : List String) : String :=
  "[" ++ String.intercalate ", " (l.map rustDebugString) ++ "]"

/-- The derived Rust `Debug` rendering of `Value`, which is what
`compare_sets` interpolates with the format specifier into each diff
entry. -/
def Value.debugFmt : Value → String
  | Value.Single s => "Single(" ++ rustDebugString s ++ ")"
  | Value.List l => "List(" ++ rustDebugStringList l ++ ")"

/-- The `fmt::Display` implementation for `Value` in `src/record.rs`:
`Single` renders as its bare string, `List` as the bracketed `Debug`
listing of the vector. -/
def Value.displayFmt : Value → String
  | Value.Single s => s
  | Value.List l => rustDebugStringList l

/-- One diff entry as pushed by `compare_sets`: the field name, a colon,
and the `Debug` rendering of the value. -/
def renderDiff (kv : String × Value) : String :=
  kv.1 ++ ":" ++ Value.debugFmt kv.2

/-- The rendering the specification describes for a diff entry: the field
name, a colon, and the `Display` rendering of the value. Stated from the
spec's words, for comparison with `renderDiff` taken from the code. -/
def renderDiffSpec (kv : String × Value) : String :=
  kv.1 ++ ":" ++ Value.displayFmt kv.2

/-- Whether `compare_sets` reports the field `kv` of a record given its
positional counterpart: always when there is no counterpart, otherwise
when the counterpart lacks the name or holds a different value. -/
def diffPred (counterpart : Option DataRecord) (kv : String × Value) : Bool :=
  match counterpart with
  | none => true
  | some c =>
    match c.get kv.1 with
    | none => true
    | some v0 => v0 ≠ kv.2

/-- The diff list `compare_sets` builds for one record against its
positional counterpart, accumulating rendered entries in field order. -/
def recDiffs (r : DataRecord) (counterpart : Option DataRecord) :
    List String :=
  r.fields.foldl
    (fun vo kv => if diffPred counterpart kv then vo ++ [renderDiff kv]
      else vo) []

/-- The enumerated loop of `compare_sets` over one sequence, pairing the
record at position `i` with index `i` of the other sequence. -/
def compareLoop (recs other : List DataRecord) (i : Nat) :
    List (List String) :=
  match recs with
  | [] => []
  | r :: rest => recDiffs r other[i]? :: compareLoop rest other (i + 1)

/-- `DataRecord::compare_sets`: positional field-level diffs of two record
sequences, returning `(only_in_result, only_in_other)`. -/
def compare_sets (result other : List DataRecord) :
    List (List String) × List (List String) :=
  (compareLoop result other 0, compareLoop other result 0)

/-- JSON-style abstract wire values for the serde boundary. -/
inductive Json where
  | str : String → Json
  | arr : List Json → Json
  | obj : List (String × Json) → Json
  | null : Json

/-- Serialization of `Value` (serde `untagged`): `Single` becomes a bare
string literal, `List` a list literal of strings. -/
def serializeValue : Value → Json
  | Value.Single s => Json.str s
  | Value.List l => Json.arr (l.map Json.str)

/-- Reads a wire value as a bare string, as the `Single` variant of the
`untagged` deserializer attempts. -/
def jsonAsString : Json → Option String
  | Json.str s => some s
  | _ => none

/-- Reads every element of a wire list as a bare string, failing on the
first element that is not one. -/
def stringsOfJson : List Json → Option (List String)
  | [] => some []
  | j :: rest =>
    match jsonAsString j, stringsOfJson rest with
    | some s, some ss => some (s :: ss)
    | _, _ => none

/-- Deserialization of `Value` (serde `untagged`): a bare string literal
is read as `Single`, a list of string literals as `List`, anything else
fails. -/
def deserializeValue : Json → Option Value
  | Json.str s => some (Value.Single s)
  | Json.arr items =>
    match stringsOfJson items with
    | some strs => some (Value.List strs)
    | none => none
  | _ => none

/-- Serialization of `DataRecord`: the flattened field map followed by the
`record_key` attribute, which carries only `skip_deserializing`, so the
serializer emits it (`None` as `null`). -/
def serializeRecord (r : DataRecord) : Json :=
  Json.obj
    (r.fields.map (fun kv => (kv.1, serializeValue kv.2)) ++
      [("record_key",
        match r.record_key with
        | none => Json.null
        | some s => Json.str s)])

/-- Reads every entry of a wire mapping as a field, each value read as an
`untagged` `Value`. -/
def fieldsOfJson : List (String × Json) → Option (List (String × Value))
  | [] => some []
  | (k, j) :: rest =>
    match deserializeValue j, fieldsOfJson rest with
    | some v, some fs => some ((k, v) :: fs)
    | _, _ => none

/-- Deserialization of `DataRecord`: `record_key` is skipped
(`skip_deserializing`, defaulting to `None`), so the flattened field map
collects every entry of the mapping, each read as an `untagged`
`Value`. -/
def deserializeRecord : Json → Option DataRecord
  | Json.obj entries =>
    match fieldsOfJson entries with
    | some fs => some ⟨fs, none⟩
    | none => none
  | _ => none

/-- Keys of a serialized mapping. -/
def jsonObjKeys : Json → List String
  | Json.obj es => es.map Prod.fst
  | _ => []

/-! ### Helper lemmas about the field map -/

lemma mapGet_mapInsert_self (m : List (String × Value)) (k : String)
    (v : Value) : mapGet (mapInsert m k v) k = some v := by
  induction m with
  | nil => simp [mapInsert, mapGet]
  | cons a rest ih =>
    obtain ⟨k0, v0⟩ := a
    by_cases h : k0 = k
    · simp [mapInsert, h, mapGet]
    · simp [mapInsert, h, mapGet, ih]

lemma mapGet_mapInsert_ne (m : List (String × Value)) (k0 k : String)
    (v : Value) (h : k0 ≠ k) : mapGet (mapInsert m k0 v) k = mapGet m k := by
  induction m with
  | nil => simp [mapInsert, mapGet, h]
  | cons a rest ih =>
    obtain ⟨k1, v1⟩ := a
    by_cases h1 : k1 = k0
    · subst h1
      simp [mapInsert, mapGet, h]
    · simp only [mapInsert, if_neg h1]
      by_cases h2 : k1 = k
      · simp [mapGet, h2]
      · simp [mapGet, h2, ih]

lemma mapGet_eq_none_of_not_mem (m : List (String × Value)) (k : String)
    (h : k ∉ m.map Prod.fst) : mapGet m k = none := by
  induction m with
  | nil => rfl
  | cons a rest ih =>
    obtain ⟨k0, v0⟩ := a
    simp only [List.map_cons, List.mem_cons] at h
    push_neg at h
    have hne : ¬k0 = k := fun hq => h.1 hq.symm
    simp [mapGet, hne, ih h.2]

lemma mapGet_of_mem_nodup (m : List (String × Value)) (kv : String × Value)
    (hnd : (m.map Prod.fst).Nodup) (hm : kv ∈ m) :
    mapGet m kv.1 = some kv.2 := by
  induction m with
  | nil => cases hm
  | cons a rest ih =>
    obtain ⟨k0, v0⟩ := a
    simp only [List.map_cons, List.nodup_cons] at hnd
    rcases List.mem_cons.mp hm with heq | hmem
    · subst heq
      simp [mapGet]
    · have hne : k0 ≠ kv.1 := by
        intro hq
        exact hnd.1 (hq ▸ List.mem_map_of_mem Prod.fst hmem)
      simp [mapGet, hne, ih hnd.2 hmem]

lemma foldl_mapInsert_get_of_none (B : List (String × Value))
    (A : List (String × Value)) (k : String) (h : mapGet B k = none) :
    mapGet (B.foldl (fun acc kv => mapInsert acc kv.1 kv.2) A) k =
      mapGet A k := by
  induction B generalizing A with
  | nil => rfl
  | cons b bs ih =>
    obtain ⟨k0, v0⟩ := b
    by_cases hk : k0 = k
    · simp [mapGet, hk] at h
    · simp only [mapGet, if_neg hk] at h
      simp only [List.foldl_cons]
      rw [ih (mapInsert A k0 v0) h, mapGet_mapInsert_ne A k0 k v0 hk]

lemma foldl_mapInsert_get_of_some (B : List (String × Value))
    (A : List (String × Value)) (k : String) (v : Value)
    (hnd : (B.map Prod.fst).Nodup) (h : mapGet B k = some v) :
    mapGet (B.foldl (fun acc kv => mapInsert acc kv.1 kv.2) A) k = some v := by
  induction B generalizing A with
  | nil => cases h
  | cons b bs ih =>
    obtain ⟨k0, v0⟩ := b
    simp only [List.map_cons, List.nodup_cons] at hnd
    by_cases hk : k0 = k
    · subst hk
      simp only [mapGet] at h
      rw [if_pos trivial, Option.some.injEq] at h
      subst h
      have hbs : mapGet bs k0 = none :=
        mapGet_eq_none_of_not_mem bs k0 hnd.1
      simp only [List.foldl_cons]
      rw [foldl_mapInsert_get_of_none bs (mapInsert A k0 v0) k0 hbs,
        mapGet_mapInsert_self]
    · simp only [mapGet, if_neg hk] at h
      simp only [List.foldl_cons]
      exact ih (mapInsert A k0 v0) hnd.2 h

/-! ### Helper lemmas about the comparator -/

lemma foldl_push_eq_filter_map (p : String × Value → Bool)
    (f : String × Value → String) (l : List (String × Value))
    (init : List String) :
    l.foldl (fun vo kv => if p kv then vo ++ [f kv] else vo) init =
      init ++ (l.filter p).map f := by
  induction l generalizing init with
  | nil => simp
  | cons a as ih =>
    by_cases h : p a
    · simp [List.filter_cons, h, ih]
    · simp [List.filter_cons, h, ih]

lemma recDiffs_eq_filter_map (r : DataRecord)
    (counterpart : Option DataRecord) :
    recDiffs r counterpart =
      (r.fields.filter (diffPred counterpart)).map renderDiff := by
  unfold recDiffs
  rw [foldl_push_eq_filter_map]
  simp

lemma compareLoop_length (recs other : List DataRecord) (i : Nat) :
    (compareLoop recs other i).length = recs.length := by
  induction recs generalizing i with
  | nil => rfl
  | cons r rest ih => simp [compareLoop, ih]

lemma compareLoop_getElem? (recs other : List DataRecord) (i j : Nat) :
    (compareLoop recs other i)[j]? =
      (recs[j]?).map (fun r => recDiffs r other[i + j]?) := by
  induction recs generalizing i j with
  | nil => simp [compareLoop]
  | cons r rest ih =>
    cases j with
    | zero => simp [compareLoop]
    | succ j =>
      simp only [compareLoop, List.getElem?_cons_succ]
      rw [ih (i + 1) j]
      have : i + 1 + j = i + (j + 1) := by omega
      rw [this]

lemma filter_eq_nil_of_all_false {α : Type} (p : α → Bool) (l : List α)
    (h : ∀ a ∈ l, p a = false) : l.filter p = [] := by
  induction l with
  | nil => rfl
  | cons a as ih =>
    rw [List.filter_cons, h a (List.mem_cons_self a as)]
    exact ih fun b hb => h b (List.mem_cons_of_mem a hb)

lemma recDiffs_self (r : DataRecord) (h : RecordWF r) :
    recDiffs r (some r) = [] := by
  rw [recDiffs_eq_filter_map]
  rw [filter_eq_nil_of_all_false _ _ ?_]
  · rfl
  · intro kv hkv
    have hget : r.get kv.1 = some kv.2 := mapGet_of_mem_nodup r.fields kv h hkv
    simp [diffPred, hget]

lemma append_value_error_inv (r : DataRecord) (name : String) (value : Value)
    (e : AppendAbort) (he : r.append_value name value = Except.error e) :
    e.name = name ∧ mapGet r.fields name = some (Value.Single e.existing) ∧
      value = Value.List e.incoming := by
  unfold DataRecord.append_value at he
  cases hg : mapGet r.fields name with
  | none => rw [hg] at he; cases he
  | some v0 =>
    cases v0 with
    | Single old =>
      cases value with
      | Single v => rw [hg] at he; cases he
      | List l =>
        rw [hg] at he
        rw [Except.error.injEq] at he
        subst he
        dsimp only
        exact ⟨rfl, rfl, rfl⟩
    | List l0 =>
      cases value <;> (rw [hg] at he; cases he)

lemma append_value_error_intro (r : DataRecord) (name s : String)
    (l : List String) (hs : mapGet r.fields name = some (Value.Single s)) :
    r.append_value name (Value.List l) = Except.error ⟨name, s, l⟩ := by
  unfold DataRecord.append_value
  rw [hs]

/-! ### Claim theorems -/

/-- C3: `append_value` follows the four-case merge policy: an absent field
stores the incoming value as-is; existing `Single` plus incoming `Single`
becomes the incoming `Single` (last write wins, no promotion to a list);
existing `List` plus incoming `Single` pushes the string onto the list;
existing `List` plus incoming `List` concatenates, preserving the order of
both. -/
theorem append_value_merge_policy (r : DataRecord) (name : String) :
    (∀ v : Value, r.get name = none →
      (r.append_value name v).map (fun r2 => r2.get name) =
        Except.ok (some v)) ∧
    (∀ s v, r.get name = some (Value.Single s) →
      (r.append_value name (Value.Single v)).map (fun r2 => r2.get name) =
        Except.ok (some (Value.Single v))) ∧
    (∀ l v, r.get name = some (Value.List l) →
      (r.append_value name (Value.Single v)).map (fun r2 => r2.get name) =
        Except.ok (some (Value.List (l ++ [v])))) ∧
    (∀ l l2, r.get name = some (Value.List l) →
      (r.append_value name (Value.List l2)).map (fun r2 => r2.get name) =
        Except.ok (some (Value.List (l ++ l2)))) := by
  refine ⟨?_, ?_, ?_, ?_⟩
  · intro v h
    unfold DataRecord.get at h
    simp [DataRecord.append_value, h, DataRecord.get, Except.map,
      mapGet_mapInsert_self]
  · intro s v h
    unfold DataRecord.get at h
    simp [DataRecord.append_value, h, DataRecord.get, Except.map,
      mapGet_mapInsert_self]
  · intro l v h
    unfold DataRecord.get at h
    simp [DataRecord.append_value, h, DataRecord.get, Except.map,
      mapGet_mapInsert_self]
  · intro l l2 h
    unfold DataRecord.get at h
    simp [DataRecord.append_value, h, DataRecord.get, Except.map,
      mapGet_mapInsert_self]

/-- Witness for C3: the four cases of the merge policy evaluated on
concrete records. -/
theorem append_value_merge_policy_witness :
    ((DataRecord.mk [] none).append_value "f" (Value.Single "a")).map
        (fun r2 => r2.get "f") = Except.ok (some (Value.Single "a")) ∧
    ((DataRecord.mk [("f", Value.Single "a")] none).append_value "f"
        (Value.Single "b")).map (fun r2 => r2.get "f") =
      Except.ok (some (Value.Single "b")) ∧
    ((DataRecord.mk [("f", Value.List ["a"])] none).append_value "f"
        (Value.Single "b")).map (fun r2 => r2.get "f") =
      Except.ok (some (Value.List ["a", "b"])) ∧
    ((DataRecord.mk [("f", Value.List ["a"])] none).append_value "f"
        (Value.List ["b", "c"])).map (fun r2 => r2.get "f") =
      Except.ok (some (Value.List ["a", "b", "c"])) := by
  refine ⟨?_, ?_, ?_, ?_⟩
  · exact (append_value_merge_policy ⟨[], none⟩ "f").1 (Value.Single "a") rfl
  · exact (append_value_merge_policy ⟨[("f", Value.Single "a")], none⟩
      "f").2.1 "a" "b" rfl
  · exact (append_value_merge_policy ⟨[("f", Value.List ["a"])], none⟩
      "f").2.2.1 ["a"] "b" rfl
  · exact (append_value_merge_policy ⟨[("f", Value.List ["a"])], none⟩
      "f").2.2.2 ["a"] ["b", "c"] rfl

/-- C4: `append_value` fails exactly when an incoming `List` meets an
existing `Single` field, and the abort payload carries the field name plus
both the existing and the incoming values. All other record operations are
total functions of the embedding, with no failure path. -/
theorem append_value_failure_iff (r : DataRecord) (name : String)
    (value : Value) :
    (∀ e : AppendAbort, r.append_value name value = Except.error e →
      e.name = name ∧ r.get name = some (Value.Single e.existing) ∧
        value = Value.List e.incoming) ∧
    ((∃ e, r.append_value name value = Except.error e) ↔
      ∃ s l, r.get name = some (Value.Single s) ∧
        value = Value.List l) := by
  constructor
  · intro e he
    have h := append_value_error_inv r name value e he
    exact ⟨h.1, h.2.1, h.2.2⟩
  · constructor
    · rintro ⟨e, he⟩
      have h := append_value_error_inv r name value e he
      exact ⟨e.existing, e.incoming, h.2.1, h.2.2⟩
    · rintro ⟨s, l, hs, hv⟩
      subst hv
      exact ⟨⟨name, s, l⟩, append_value_error_intro r name s l hs⟩

/-- Witness for C4: appending `List(["b"])` onto a field holding
`Single("a")` aborts with the field name and both values. -/
theorem append_value_failure_iff_witness :
    (AppendAbort.mk "f" "a" ["b"]).name = "f" ∧
    (DataRecord.mk [("f", Value.Single "a")] none).get "f" =
      some (Value.Single "a") ∧
    Value.List ["b"] = Value.List ["b"] :=
  (append_value_failure_iff ⟨[("f", Value.Single "a")], none⟩ "f"
    (Value.List ["b"])).1 ⟨"f", "a", ["b"]⟩ rfl

/-- C5: `insert` makes an absent field `Single(value)`, promotes an
existing `Single(old)` to `List([old, value])` with `old` first, and
appends to an existing `List`, so repeated inserts grow the field in
insertion order without losing data. -/
theorem insert_auto_promotion (r : DataRecord) (name value : String) :
    (r.get name = none →
      (r.insert name value).get name = some (Value.Single value)) ∧
    (∀ old, r.get name = some (Value.Single old) →
      (r.insert name value).get name = some (Value.List [old, value])) ∧
    (∀ xs, r.get name = some (Value.List xs) →
      (r.insert name value).get name =
        some (Value.List (xs ++ [value]))) := by
  refine ⟨?_, ?_, ?_⟩
  · intro h
    unfold DataRecord.get at h
    simp [DataRecord.insert, h, DataRecord.get, mapGet_mapInsert_self]
  · intro old h
    unfold DataRecord.get at h
    simp [DataRecord.insert, h, DataRecord.get, mapGet_mapInsert_self]
  · intro xs h
    unfold DataRecord.get at h
    simp [DataRecord.insert, h, DataRecord.get, mapGet_mapInsert_self]

/-- Witness for C5: the spec's concrete chain of inserts on field `f`. -/
theorem insert_auto_promotion_witness :
    ((DataRecord.mk [] none).insert "f" "x").get "f" =
      some (Value.Single "x") ∧
    (((DataRecord.mk [] none).insert "f" "x").insert "f" "y").get "f" =
      some (Value.List ["x", "y"]) ∧
    ((((DataRecord.mk [] none).insert "f" "x").insert "f" "y").insert "f"
        "z").get "f" = some (Value.List ["x", "y", "z"]) := by
  refine ⟨?_, ?_, ?_⟩
  · exact (insert_auto_promotion ⟨[], none⟩ "f" "x").1 rfl
  · exact (insert_auto_promotion ((DataRecord.mk [] none).insert "f" "x")
      "f" "y").2.1 "x" rfl
  · exact (insert_auto_promotion (((DataRecord.mk [] none).insert "f"
      "x").insert "f" "y") "f" "z").2.2 ["x", "y"] rfl

/-- C10: every mutation operation (`insert`, `append_value`,
`overwrite_from`, `remove`) leaves `record_key` unchanged; in particular
`overwrite_from` copies only the other record's fields, never its
`record_key`. -/
theorem mutations_preserve_record_key (r other : DataRecord)
    (name value : String) (v : Value) :
    ((r.insert name value).record_key = r.record_key) ∧
    (∀ r2, r.append_value name v = Except.ok r2 →
      r2.record_key = r.record_key) ∧
    ((r.overwrite_from other).record_key = r.record_key) ∧
    ((r.remove name).record_key = r.record_key) := by
  refine ⟨?_, ?_, ?_, ?_⟩
  · unfold DataRecord.insert
    cases hg : mapGet r.fields name with
    | none => rfl
    | some v0 => cases v0 <;> rfl
  · intro r2 h
    unfold DataRecord.append_value at h
    cases hg : mapGet r.fields name with
    | none => rw [hg] at h; cases h; rfl
    | some v0 =>
      cases v0 with
      | Single s =>
        cases v with
        | Single vv => rw [hg] at h; cases h; rfl
        | List l => rw [hg] at h; cases h
      | List l0 =>
        cases v <;> (rw [hg] at h; cases h; rfl)
  · rfl
  · rfl

/-- Witness for C10: an `append_value` success on a record whose
`record_key` is set keeps that key. -/
theorem mutations_preserve_record_key_witness :
    (DataRecord.mk [("f", Value.List ["a", "b"])] (some "kk")).record_key =
      (DataRecord.mk [("f", Value.List ["a"])] (some "kk")).record_key :=
  (mutations_preserve_record_key
    ⟨[("f", Value.List ["a"])], some "kk"⟩ ⟨[], none⟩ "f" "x"
    (Value.Single "b")).2.1
    ⟨[("f", Value.List ["a", "b"])], some "kk"⟩ rfl

/-- C6: after `a.overwrite_from(b)`, every field present in `b` holds
exactly `b`'s value in `a`, and every field absent from `b` is
unchanged. -/
theorem overwrite_from_spec (a b : DataRecord) (hb : RecordWF b)
    (k : String) :
    (∀ v, b.get k = some v → (a.overwrite_from b).get k = some v) ∧
    (b.get k = none → (a.overwrite_from b).get k = a.get k) := by
  constructor
  · intro v hv
    unfold DataRecord.get at hv ⊢
    unfold DataRecord.overwrite_from
    exact foldl_mapInsert_get_of_some b.fields a.fields k v hb hv
  · intro hv
    unfold DataRecord.get at hv ⊢
    unfold DataRecord.overwrite_from
    exact foldl_mapInsert_get_of_none b.fields a.fields k hv

/-- Witness for C6: the spec's concrete overlay example,
`{a:"1", b:"2"}.overwrite_from({b:"3", c:"4"})`. -/
theorem overwrite_from_spec_witness :
    ((DataRecord.mk [("a", Value.Single "1"), ("b", Value.Single "2")]
        none).overwrite_from
      (DataRecord.mk [("b", Value.Single "3"), ("c", Value.Single "4")]
        none)).get "b" = some (Value.Single "3") ∧
    ((DataRecord.mk [("a", Value.Single "1"), ("b", Value.Single "2")]
        none).overwrite_from
      (DataRecord.mk [("b", Value.Single "3"), ("c", Value.Single "4")]
        none)).get "c" = some (Value.Single "4") ∧
    ((DataRecord.mk [("a", Value.Single "1"), ("b", Value.Single "2")]
        none).overwrite_from
      (DataRecord.mk [("b", Value.Single "3"), ("c", Value.Single "4")]
        none)).get "a" =
      (DataRecord.mk [("a", Value.Single "1"), ("b", Value.Single "2")]
        none).get "a" := by
  refine ⟨?_, ?_, ?_⟩
  · exact (overwrite_from_spec
      ⟨[("a", Value.Single "1"), ("b", Value.Single "2")], none⟩
      ⟨[("b", Value.Single "3"), ("c", Value.Single "4")], none⟩
      (by decide) "b").1 (Value.Single "3") rfl
  · exact (overwrite_from_spec
      ⟨[("a", Value.Single "1"), ("b", Value.Single "2")], none⟩
      ⟨[("b", Value.Single "3"), ("c", Value.Single "4")], none⟩
      (by decide) "c").1 (Value.Single "4") rfl
  · exact (overwrite_from_spec
      ⟨[("a", Value.Single "1"), ("b", Value.Single "2")], none⟩
      ⟨[("b", Value.Single "3"), ("c", Value.Single "4")], none⟩
      (by decide) "a").2 rfl

/-- C7: `compare_sets` returns two parallel sequences, one entry per
input record; at an in-bounds index a field is reported precisely when
the positional counterpart lacks the name or holds a different value, and
with no counterpart every field is reported; `compare_sets([rec], [])`
reports every field of `rec` and returns an empty second component. -/
theorem compare_sets_positional (result other : List DataRecord) :
    ((compare_sets result other).1.length = result.length ∧
      (compare_sets result other).2.length = other.length) ∧
    (∀ j : Nat, (compare_sets result other).1[j]? =
      (result[j]?).map (fun r =>
        (r.fields.filter (diffPred other[j]?)).map renderDiff)) ∧
    (∀ j : Nat, (compare_sets result other).2[j]? =
      (other[j]?).map (fun r =>
        (r.fields.filter (diffPred result[j]?)).map renderDiff)) ∧
    (∀ c kv, diffPred (some c) kv = true ↔
      (c.get kv.1 = none ∨ ∃ v0, c.get kv.1 = some v0 ∧ v0 ≠ kv.2)) ∧
    (∀ kv, diffPred none kv = true) ∧
    ((compare_sets [DataRecord.mk [("a", Value.Single "1"),
        ("b", Value.List ["p", "q"])] none] []).1 =
      [(DataRecord.mk [("a", Value.Single "1"),
        ("b", Value.List ["p", "q"])] none).fields.map renderDiff] ∧
      (compare_sets [DataRecord.mk [("a", Value.Single "1"),
        ("b", Value.List ["p", "q"])] none] []).2 =
        ([] : List (List String))) := by
  refine ⟨⟨compareLoop_length result other 0, compareLoop_length other
    result 0⟩, ?_, ?_, ?_, fun kv => rfl, by decide, by decide⟩
  · intro j
    have h1 := compareLoop_getElem? result other 0 j
    simp only [Nat.zero_add] at h1
    rw [show (compare_sets result other).1 = compareLoop result other 0
      from rfl, h1]
    simp [recDiffs_eq_filter_map]
  · intro j
    have h1 := compareLoop_getElem? other result 0 j
    simp only [Nat.zero_add] at h1
    rw [show (compare_sets result other).2 = compareLoop other result 0
      from rfl, h1]
    simp [recDiffs_eq_filter_map]
  · intro c kv
    cases hg : c.get kv.1 with
    | none => simp [diffPred, hg]
    | some v0 => simp [diffPred, hg]

/-- C8: comparing a record sequence against an identical copy of itself
yields two sequences of the same length in which every diff entry is
empty, since value comparison is structural equality. -/
theorem compare_sets_self_empty (R : List DataRecord)
    (h : ∀ r ∈ R, RecordWF r) :
    (compare_sets R R).1.length = R.length ∧
    (compare_sets R R).2.length = R.length ∧
    (∀ l ∈ (compare_sets R R).1, l = []) ∧
    (∀ l ∈ (compare_sets R R).2, l = []) := by
  have key : ∀ l ∈ compareLoop R R 0, l = [] := by
    intro l hl
    obtain ⟨n, hn⟩ := List.get_of_mem hl
    have hn1 : n.1 < R.length := by
      have h2 := n.2
      have h3 := compareLoop_length R R 0
      omega
    have h1 : (compareLoop R R 0)[n.1]? = some l := by
      rw [List.getElem?_eq_getElem n.2, ← List.get_eq_getElem, hn]
    rw [compareLoop_getElem? R R 0 n.1] at h1
    simp only [Nat.zero_add] at h1
    rw [List.getElem?_eq_getElem hn1] at h1
    simp only [Option.map_some'] at h1
    rw [recDiffs_self _ (h _ (List.getElem_mem hn1))] at h1
    exact (Option.some.injEq _ _ ▸ h1).symm
  exact ⟨compareLoop_length R R 0, compareLoop_length R R 0, key, key⟩

/-- Witness for C8: a two-record sequence compared against itself has two
entries, all empty. -/
theorem compare_sets_self_empty_witness :
    (compare_sets
      [DataRecord.mk [("a", Value.Single "1")] none,
        DataRecord.mk [("b", Value.List ["p", "q"]),
          ("c", Value.Single "3")] none]
      [DataRecord.mk [("a", Value.Single "1")] none,
        DataRecord.mk [("b", Value.List ["p", "q"]),
          ("c", Value.Single "3")] none]).1.length = 2 ∧
    (compare_sets
      [DataRecord.mk [("a", Value.Single "1")] none,
        DataRecord.mk [("b", Value.List ["p", "q"]),
          ("c", Value.Single "3")] none]
      [DataRecord.mk [("a", Value.Single "1")] none,
        DataRecord.mk [("b", Value.List ["p", "q"]),
          ("c", Value.Single "3")] none]).1.all List.isEmpty = true := by
  have hh := compare_sets_self_empty
    [DataRecord.mk [("a", Value.Single "1")] none,
      DataRecord.mk [("b", Value.List ["p", "q"]),
        ("c", Value.Single "3")] none] (by decide)
  refine ⟨hh.1, ?_⟩
  rw [List.all_eq_true]
  intro l hl
  rw [hh.2.2.1 l hl]
  rfl

/-- C1 counterexample: `compare_sets([{a:"1"}], [{a:"2"}])` does not
render its diff entries via `Value`'s display form; the claimed output
`[["a:1"]]`, `[["a:2"]]` is not what the code returns. -/
theorem compare_sets_display_counterexample :
    compare_sets [DataRecord.mk [("a", Value.Single "1")] none]
        [DataRecord.mk [("a", Value.Single "2")] none] ≠
      ([[renderDiffSpec ("a", Value.Single "1")]],
        [[renderDiffSpec ("a", Value.Single "2")]]) ∧
    renderDiffSpec ("a", Value.Single "1") = "a:1" ∧
    renderDiffSpec ("a", Value.Single "2") = "a:2" := by
  refine ⟨by decide, rfl, rfl⟩

/-- C1 amended: each diff entry is the string `"name:value"` where the
value is rendered via `Value`'s derived `Debug` form (`Single(s)` renders
as `Single("s")`, `List` as `List([...])`); in particular
`compare_sets([{a:"1"}], [{a:"2"}])` returns `[["a:Single(\"1\")"]]` and
`[["a:Single(\"2\")"]]`. -/
theorem compare_sets_debug_rendering (result other : List DataRecord)
    (j : Nat) (r : DataRecord) (dl : List String)
    (hr : result[j]? = some r)
    (hd : (compare_sets result other).1[j]? = some dl) :
    dl ⊆ r.fields.map renderDiff ∧
    compare_sets [DataRecord.mk [("a", Value.Single "1")] none]
        [DataRecord.mk [("a", Value.Single "2")] none] =
      ([["a:Single(\"1\")"]], [["a:Single(\"2\")"]]) := by
  refine ⟨?_, by decide⟩
  have h1 := compareLoop_getElem? result other 0 j
  simp only [Nat.zero_add] at h1
  rw [show (compare_sets result other).1 = compareLoop result other 0
    from rfl, h1, hr, Option.map_some', Option.some.injEq] at hd
  rw [← hd, recDiffs_eq_filter_map]
  exact List.map_subset renderDiff (List.filter_sublist _).subset

/-- Witness for C1's amended theorem at the concrete one-field records. -/
theorem compare_sets_debug_rendering_witness :
    (["a:Single(\"1\")"] ⊆
      (DataRecord.mk [("a", Value.Single "1")] none).fields.map
        renderDiff) ∧
    compare_sets [DataRecord.mk [("a", Value.Single "1")] none]
        [DataRecord.mk [("a", Value.Single "2")] none] =
      ([["a:Single(\"1\")"]], [["a:Single(\"2\")"]]) :=
  compare_sets_debug_rendering
    [DataRecord.mk [("a", Value.Single "1")] none]
    [DataRecord.mk [("a", Value.Single "2")] none] 0
    (DataRecord.mk [("a", Value.Single "1")] none)
    ["a:Single(\"1\")"] rfl rfl

/-- C2 counterexample: serializing a record whose `record_key` is set
produces a mapping that does contain a `record_key` entry, so the key is
not excluded from the serialize direction. -/
theorem record_key_serialized_counterexample :
    "record_key" ∈ jsonObjKeys
      (serializeRecord
        (DataRecord.mk [("a", Value.Single "1")] (some "k"))) := by
  decide

/-- C2 amended: `record_key` is excluded from deserialization only —
every successful deserialization yields a record whose `record_key` is
`None` — while serialization always emits a `record_key` entry in the
wire mapping. -/
theorem record_key_wire_asymmetry :
    (∀ j r, deserializeRecord j = some r → r.record_key = none) ∧
    (∀ r : DataRecord,
      "record_key" ∈ jsonObjKeys (serializeRecord r)) := by
  constructor
  · intro j r h
    cases j with
    | obj entries =>
      simp only [deserializeRecord] at h
      cases hf : fieldsOfJson entries with
      | none => rw [hf] at h; cases h
      | some fs => rw [hf] at h; cases h; rfl
    | str s => simp [deserializeRecord] at h
    | arr items => simp [deserializeRecord] at h
    | null => simp [deserializeRecord] at h
  · intro r
    simp [serializeRecord, jsonObjKeys]

/-- Witness for C2's amended theorem: deserializing a concrete mapping
(whose `record_key` entry lands in `fields`) yields `record_key = None`,
and a concrete serialized record contains a `record_key` entry. -/
theorem record_key_wire_asymmetry_witness :
    (DataRecord.mk [("a", Value.Single "1"),
      ("record_key", Value.Single "zzz")] none).record_key = none ∧
    "record_key" ∈ jsonObjKeys
      (serializeRecord
        (DataRecord.mk [("x", Value.List ["p", "q"])] none)) :=
  ⟨record_key_wire_asymmetry.1
      (Json.obj [("a", Json.str "1"), ("record_key", Json.str "zzz")])
      (DataRecord.mk [("a", Value.Single "1"),
        ("record_key", Value.Single "zzz")] none) rfl,
    record_key_wire_asymmetry.2
      (DataRecord.mk [("x", Value.List ["p", "q"])] none)⟩

/-- C9: field serialization is polymorphic by arity and round-trips:
`List(["p","q"])` serializes to the list literal and back, `Single("z")`
round-trips through the bare string literal, and the two shapes are
disambiguated at read time by the literal's shape. -/
theorem value_wire_round_trip :
    (∀ v : Value, deserializeValue (serializeValue v) = some v) ∧
    serializeValue (Value.List ["p", "q"]) =
      Json.arr [Json.str "p", Json.str "q"] ∧
    deserializeValue (Json.arr [Json.str "p", Json.str "q"]) =
      some (Value.List ["p", "q"]) ∧
    serializeValue (Value.Single "z") = Json.str "z" ∧
    deserializeValue (Json.str "z") = some (Value.Single "z") ∧
    serializeRecord (DataRecord.mk [("x", Value.List ["p", "q"])] none) =
      Json.obj [("x", Json.arr [Json.str "p", Json.str "q"]),
        ("record_key", Json.null)] ∧
    serializeRecord (DataRecord.mk [("x", Value.Single "z")] none) =
      Json.obj [("x", Json.str "z"), ("record_key", Json.null)] := by
  refine ⟨?_, rfl, rfl, rfl, rfl, rfl, rfl⟩
  intro v
  cases v with
  | Single s => rfl
  | List l =>
    have hl : stringsOfJson (l.map Json.str) = some l := by
      induction l with
      | nil => rfl
      | cons s ss ih => simp [stringsOfJson, jsonAsString, ih]
    simp [serializeValue, deserializeValue, hl]

end AsyncFsm
